import Mathlib

/-!
# Shallow embedding of the dotini INI reader

This file embeds the parsing core of the `dotini` repository
(`src/ini.cpp` together with the `ini.hpp` header holding `Field`,
`ErrorCode` and the query surface) into Lean, and proves the behavioural
claims about it.

Conventions of the embedding:
* `std::string` is Lean `String`; all character work happens on `String.data`
  (a `List Char`), which matches byte-wise handling for the ASCII inputs the
  format uses.
* `std::set<Field>` (ordered by `Field::operator<`, which compares keys
  only) is a key-sorted `List Field` with the `std::set::insert` semantics:
  inserting an element equivalent to an existing one is a no-op.
* `std::map<std::string, std::set<Field>>` is a name-sorted association
  list with the same insert semantics.
* `std::set<std::string>` is a sorted duplicate-free `List String`.
* Functions that can throw (`std::map::at`, `std::stoi`) return `Option`,
  `none` standing for the thrown exception.
-/

namespace DotIni

/-- `INIReader::rstrip` on the character list: the C++ uses the regex
`" +$"`, i.e. it removes trailing space characters only. -/
def rstripL (cs : List Char) : List Char :=
  (cs.reverse.dropWhile (fun c => c == ' ')).reverse

/-- `INIReader::rstrip` (in-place in C++, functional here). -/
def rstrip (s : String) : String :=
  String.mk (rstripL s.data)

/-- `INIReader::lstrip`: regex `"^ +"`, removes leading spaces only. -/
def lstrip (s : String) : String :=
  String.mk (s.data.dropWhile (fun c => c == ' '))

/-- `INIReader::trim`: `lstrip` then `rstrip`. -/
def trim (s : String) : String :=
  rstrip (lstrip s)

/-- `std::string::substr(pos, len)`: take `len` characters from `pos`
(clamped at the end of the string, as in C++ for in-range `pos`). -/
def substr (cs : List Char) (pos len : Nat) : List Char :=
  (cs.drop pos).take len

/-- The `START_COMMENT_PREFIXES` macro from `defines.hpp`: `";#"`. -/
def startCommentChars : List Char := [';', '#']

/-- The `INLINE_COMMENT_PREFIXES` macro from `defines.hpp`: `";"`.
Declared in the source but never used by any function. -/
def inlineCommentChars : List Char := [';']

/-- The `ErrorCode` enum from `ini.hpp`. -/
inductive ErrorCode where
  | None
  | NoSuchFile
  | NoClosingBracketForSection
  | EmptySection
  | KeyOutsideSection
  | NoValueForKey
  | NoClosingQuotationForValue
deriving DecidableEq, Repr, BEq

/-- The `Field` struct from `ini.hpp`: a key/value pair of strings.
`Field::operator<` compares keys only; `Field::operator==` compares key
and value. -/
structure Field where
  key : String
  value : String
deriving DecidableEq, Repr, BEq

/-- `Field::toString`: renders `key=value`. -/
def Field.toString (f : Field) : String :=
  f.key ++ "=" ++ f.value

/-- Lexicographic comparison of character lists, as
`std::string::compare` orders strings. -/
def ltCharList : List Char → List Char → Bool
  | _, [] => false
  | [], _ :: _ => true
  | a :: as, b :: bs =>
    if a < b then true
    else if b < a then false
    else ltCharList as bs

/-- `std::string` ordering (`compare(...) < 0`), as used by
`Field::operator<` and by `std::map`/`std::set` on section names. -/
def ltStr (a b : String) : Bool :=
  ltCharList a.data b.data

/-- `std::set<Field>::insert` under `Field::operator<` (which compares
keys only): keep the list sorted by key; if an element with the same key
is already present the insert is a no-op (`std::set` never replaces an
equivalent element). -/
def insertField : List Field → Field → List Field
  | [], f => [f]
  | g :: gs, f =>
    if ltStr f.key g.key then f :: g :: gs
    else if ltStr g.key f.key then g :: insertField gs f
    else g :: gs

/-- Find the field set of a section in the lookup map
(`std::map::find`, `none` for `end()`). -/
def lookupFind : List (String × List Field) → String → Option (List Field)
  | [], _ => none
  | (s, fs) :: rest, sec => if sec == s then some fs else lookupFind rest sec

/-- The effect of `INIReader::parsePair`'s map update: if the section has
no entry yet, create one holding the single field; otherwise insert the
field into the existing `std::set<Field>`. The map stays sorted by
section name. -/
def mapInsertField : List (String × List Field) → String → Field →
    List (String × List Field)
  | [], sec, f => [(sec, [f])]
  | (s, fs) :: rest, sec, f =>
    if ltStr sec s then (sec, [f]) :: (s, fs) :: rest
    else if ltStr s sec then (s, fs) :: mapInsertField rest sec f
    else (s, insertField fs f) :: rest

/-- `std::set<std::string>::insert` (used for `m_section_names`):
sorted, idempotent. -/
def insertName : List String → String → List String
  | [], s => [s]
  | t :: ts, s =>
    if ltStr s t then s :: t :: ts
    else if ltStr t s then t :: insertName ts s
    else t :: ts

/-- The parser/reader state: the private members of `INIReader` that the
constructor and parsing routines mutate. -/
structure INIReader where
  m_line_num : Nat := 1
  m_in_section : Bool := false
  m_curr_section : String := ""
  m_error : ErrorCode := ErrorCode.None
  m_lookup : List (String × List Field) := []
  m_section_names : List String := []
deriving DecidableEq, Repr

/-- `INIReader::hasEmptySections`: false on an empty map, otherwise true
iff some section's field set is empty. -/
def hasEmptySections (r : INIReader) : Bool :=
  if r.m_lookup.isEmpty then false
  else r.m_lookup.any (fun e => e.2.isEmpty)

/-- The search loop of `INIReader::removeComment`: try each comment
character of `startCommentChars` in order and return the index of the
first one that occurs anywhere in the string (`std::string::find`). -/
def findCommentIdx (cs : List Char) : List Char → Option Nat
  | [] => none
  | p :: ps =>
    match cs.findIdx? (fun c => c == p) with
    | some i => some i
    | none => findCommentIdx cs ps

/-- `INIReader::removeComment`: the C++ iterates over
`START_COMMENT_PREFIXES` (note: not `INLINE_COMMENT_PREFIXES`), truncates
the string before the first comment character found, then rstrips. -/
def removeComment (str : String) : String :=
  match findCommentIdx str.data startCommentChars with
  | none => str
  | some commentIdx => rstrip (String.mk (substr str.data 0 commentIdx))

/-- `INIReader::parseSection`: check `hasEmptySections` first, then set
`m_in_section`, then look for `]`; on success record the rstripped name
between the brackets as the current section and insert it into
`m_section_names`. Returns the updated state and the C++ return value. -/
def parseSection (r : INIReader) (str : String) : INIReader × Bool :=
  if hasEmptySections r then
    ({ r with m_error := ErrorCode.EmptySection }, false)
  else
    let r := { r with m_in_section := true }
    match str.data.findIdx? (fun c => c == ']') with
    | none => ({ r with m_error := ErrorCode.NoClosingBracketForSection }, false)
    | some closingIdx =>
      let sec := rstrip (String.mk (substr str.data 1 (closingIdx - 1)))
      ({ r with
          m_curr_section := sec,
          m_section_names := insertName r.m_section_names sec }, true)

/-- Index of the last `"` in the list (`std::string::rfind`). -/
def rfindQuote (cs : List Char) : Option Nat :=
  match cs.reverse.findIdx? (fun c => c == '"') with
  | none => none
  | some i => some (cs.length - 1 - i)

/-- `INIReader::parsePair`: reject pairs outside a section, trim key and
value, reject empty values, handle quoted values (content between first
and last quote, then rstrip) or strip inline comments, and insert the
resulting field into the current section's set. -/
def parsePair (r : INIReader) (k v : String) : INIReader × Bool :=
  if !r.m_in_section then
    ({ r with m_error := ErrorCode.KeyOutsideSection }, false)
  else
    let key := trim k
    let val := trim v
    if val.data.isEmpty then
      ({ r with m_error := ErrorCode.NoValueForKey }, false)
    else if val.data.headD ' ' == '"' then
      match rfindQuote val.data with
      | none =>
        ({ r with m_error := ErrorCode.NoClosingQuotationForValue }, false)
      | some endIdx =>
        if endIdx == 0 then
          ({ r with m_error := ErrorCode.NoClosingQuotationForValue }, false)
        else
          let val := rstrip (String.mk (substr val.data 1 (endIdx - 1)))
          ({ r with
              m_lookup := mapInsertField r.m_lookup r.m_curr_section ⟨key, val⟩ },
           true)
    else
      let val := removeComment val
      ({ r with
          m_lookup := mapInsertField r.m_lookup r.m_curr_section ⟨key, val⟩ },
       true)

/-- `INIReader::parseLine`: empty lines and start-of-line comments are
skipped, `[` starts a section, otherwise the line must contain `=` and is
split at the first `=` into key and value. -/
def parseLine (r : INIReader) (str : String) : INIReader × Bool :=
  match str.data with
  | [] => (r, true)
  | c :: _ =>
    if startCommentChars.contains c then (r, true)
    else if c == '[' then parseSection r str
    else
      match str.data.findIdx? (fun ch => ch == '=') with
      | none => ({ r with m_error := ErrorCode.NoValueForKey }, false)
      | some assignIdx =>
        parsePair r
          (String.mk (substr str.data 0 assignIdx))
          (String.mk (substr str.data (assignIdx + 1) (str.data.length - assignIdx)))

/-- The constructor's read loop: rstrip each line, parse it, stop at the
first failing line, count lines. -/
def parseLines : INIReader → List String → INIReader
  | r, [] => r
  | r, l :: ls =>
    match parseLine r (rstrip l) with
    | (r1, true) => parseLines { r1 with m_line_num := r1.m_line_num + 1 } ls
    | (r1, false) => r1

/-- `INIReader::INIReader` after a successful file open: parse the
sequence of lines delivered by `std::getline`. -/
def parseINI (lines : List String) : INIReader :=
  parseLines { m_line_num := 1 } lines

/-- `std::getline` line splitting: lines are terminated by `\n` or by end
of input; a trailing newline does not produce an extra empty line. -/
def splitLinesAux : List Char → List Char → List String
  | [], [] => []
  | [], acc => [String.mk acc.reverse]
  | c :: rest, acc =>
    if c == '\n' then String.mk acc.reverse :: splitLinesAux rest []
    else splitLinesAux rest (c :: acc)

/-- Split a whole input text the way the constructor's `getline` loop
sees it. -/
def splitLines (s : String) : List String :=
  splitLinesAux s.data []

/-- Parse a whole input text. -/
def parseString (s : String) : INIReader :=
  parseINI (splitLines s)

/-- `INIReader::success`: true iff no error was recorded. -/
def success (r : INIReader) : Bool :=
  r.m_error == ErrorCode.None

/-- `INIReader::get`: find the section's field set, then return the value
of the first field (in set iteration order, i.e. key order) whose key
matches, else the default. -/
def get (r : INIReader) (sec key defValue : String) : String :=
  match lookupFind r.m_lookup sec with
  | none => defValue
  | some fields =>
    match fields.find? (fun f => f.key == key) with
    | some f => f.value
    | none => defValue

/-- `INIReader::getString`: default exactly when the raw lookup (with
empty-string default) is empty. -/
def getString (r : INIReader) (sec key defValue : String) : String :=
  let str := get r sec key ""
  if str.data.isEmpty then defValue else str

/-- Whitespace, as `std::stoi` (via `strtol` / `isspace`) skips it. -/
def isSpaceChar (c : Char) : Bool :=
  c == ' ' || c == '\t' || c == '\n' || c == '\x0b' || c == '\x0c' || c == '\r'

/-- Decimal digit test. -/
def isDigitChar (c : Char) : Bool :=
  '0' ≤ c && c ≤ '9'

/-- Accumulate a decimal digit list into a natural number. -/
def digitsToNat : List Char → Nat → Nat
  | [], acc => acc
  | c :: cs, acc => digitsToNat cs (acc * 10 + (c.toNat - 48))

/-- `std::stoi` on base 10: skip whitespace, optional sign, then decimal
digits; `none` models the `std::invalid_argument` exception thrown when
no digits are found. (The `std::out_of_range` overflow exception is not
modelled; no claim exercises it.) -/
def stoi (s : String) : Option Int :=
  let cs := s.data.dropWhile isSpaceChar
  let signAndRest : Int × List Char :=
    match cs with
    | '-' :: rest => (-1, rest)
    | '+' :: rest => (1, rest)
    | _ => (1, cs)
  let digits := signAndRest.2.takeWhile isDigitChar
  if digits.isEmpty then none
  else some (signAndRest.1 * (digitsToNat digits 0 : Int))

/-- `INIReader::getInt`: default on empty raw lookup, otherwise
`std::stoi` of the raw string (`none` models the uncaught exception). -/
def getInt (r : INIReader) (sec key : String) (defValue : Int) :
    Option Int :=
  let str := get r sec key ""
  if str.data.isEmpty then some defValue else stoi str

/-- `std::tolower` in the C locale on a byte: only `A`–`Z` change. -/
def toLowerChar (c : Char) : Char :=
  if 'A' ≤ c ∧ c ≤ 'Z' then Char.ofNat (c.toNat + 32) else c

/-- The `std::transform` lowercase pass in `INIReader::getBool`. -/
def toLowerStr (s : String) : String :=
  String.mk (s.data.map toLowerChar)

/-- `INIReader::getBool`: default on empty raw lookup; otherwise
lower-case and compare against the four true and four false literals. -/
def getBool (r : INIReader) (sec key : String) (defValue : Bool) : Bool :=
  let str := get r sec key ""
  if str.data.isEmpty then defValue
  else
    let str := toLowerStr str
    if str == "true" || str == "yes" || str == "on" || str == "1" then true
    else if str == "false" || str == "no" || str == "off" || str == "0" then false
    else defValue

/-- `INIReader::getSectionFields`: `m_lookup.at(section)`; `none` models
the `std::out_of_range` exception thrown when the section has no entry in
the lookup map. -/
def getSectionFields (r : INIReader) (sec : String) :
    Option (List Field) :=
  lookupFind r.m_lookup sec

/-- `INIReader::getSectionNames`: the `m_section_names` set. -/
def getSectionNames (r : INIReader) : List String :=
  r.m_section_names

/-! ## Definitions used by the statements of the claims

Predicates describing parser states and input lines, and two
specification-side re-renderings of accessor logic used for
refinement-style comparison. -/

/-- Every section entry of a lookup map holds at least one field. -/
def LookupNonempty (m : List (String × List Field)) : Prop :=
  ∀ e ∈ m, e.2.isEmpty = false

/-- The parser-state invariant used for the empty-section analysis: all
stored field sets are non-empty and the recorded error is not
`EmptySection`. -/
def Inv (r : INIReader) : Prop :=
  LookupNonempty r.m_lookup ∧ r.m_error ≠ ErrorCode.EmptySection

/-- A field set is strongly sorted when every element's key is
`ltStr`-below the key of every later element. This holds for every field
set the parser builds and is the ordering discipline of `std::set`. -/
def pairwiseKeysLt : List Field → Bool
  | [] => true
  | g :: gs => (gs.all fun h => ltStr g.key h.key) && pairwiseKeysLt gs

/-- A raw line the parser ignores: blank after rstrip, or starting with a
start-of-line comment character. -/
def isBlankOrComment (p : String) : Bool :=
  (rstrip p).data.isEmpty
    || startCommentChars.contains ((rstrip p).data.headD ' ')

/-- A raw line that reaches `parsePair`: non-blank, not a comment, not a
section header, and containing an `=`. -/
def isKeyValueLine (l : String) : Bool :=
  !(rstrip l).data.isEmpty
    && !(startCommentChars.contains ((rstrip l).data.headD ' '))
    && !((rstrip l).data.headD ' ' == '[')
    && ((rstrip l).data.findIdx? (fun c => c == '=')).isSome

/-- Specification-side rendering of the amended inline-comment rule: the
value is truncated before the first occurrence of `;` when one is
present, otherwise before the first occurrence of `#` when one is
present, otherwise kept whole; trailing whitespace is re-stripped after
truncation. -/
def removeCommentAmended (s : String) : String :=
  match s.data.findIdx? (fun c => c == ';') with
  | some i => rstrip (String.mk (s.data.take i))
  | none =>
    match s.data.findIdx? (fun c => c == '#') with
    | some i => rstrip (String.mk (s.data.take i))
    | none => s

/-- Specification-side boolean interpretation of a raw looked-up string,
as the spec words it: lower-case it, then `"true"`, `"yes"`, `"on"`,
`"1"` give `true`; `"false"`, `"no"`, `"off"`, `"0"` give `false`;
anything else (including the empty string) gives the default. -/
def getBoolOfRaw (raw : String) (defValue : Bool) : Bool :=
  let l := toLowerStr raw
  if l == "true" || l == "yes" || l == "on" || l == "1" then true
  else if l == "false" || l == "no" || l == "off" || l == "0" then false
  else defValue

/-! ## Invariants of the parser state

`m_lookup` only ever receives entries through `parsePair`, which creates a
section entry together with its first field; consequently every field set
in the map is non-empty, `hasEmptySections` can never return `true`, and
the `EmptySection` error is unreachable. -/

/-- Inserting into a field set never produces the empty set. -/
lemma insertField_isEmpty_false (fs : List Field) (f : Field) :
    (insertField fs f).isEmpty = false := by
  cases fs with
  | nil => rfl
  | cons g gs =>
    simp only [insertField]
    by_cases h1 : ltStr f.key g.key = true
    · simp [h1]
    · by_cases h2 : ltStr g.key f.key = true <;> simp [h1, h2]

/-- `mapInsertField` preserves the non-emptiness of all field sets. -/
lemma mapInsertField_nonempty (m : List (String × List Field))
    (sec : String) (f : Field) (hm : LookupNonempty m) :
    LookupNonempty (mapInsertField m sec f) := by
  induction m with
  | nil =>
    intro e he
    rcases List.mem_singleton.mp he with rfl
    rfl
  | cons p rest ih =>
    obtain ⟨s, fs⟩ := p
    have hrest : LookupNonempty rest := fun e he => hm e (List.mem_cons_of_mem _ he)
    have hhead : fs.isEmpty = false := hm (s, fs) (List.mem_cons_self _ _)
    intro e he
    simp only [mapInsertField] at he
    by_cases h1 : ltStr sec s = true
    · simp only [h1, if_true] at he
      rcases List.mem_cons.mp he with rfl | he
      · rfl
      · rcases List.mem_cons.mp he with rfl | he
        · exact hhead
        · exact hrest e he
    · simp only [h1, if_false] at he
      by_cases h2 : ltStr s sec = true
      · simp only [h2, if_true] at he
        rcases List.mem_cons.mp he with rfl | he
        · exact hhead
        · exact ih hrest e he
      · simp only [h2, if_false] at he
        rcases List.mem_cons.mp he with rfl | he
        · exact insertField_isEmpty_false fs f
        · exact hrest e he

/-- On a lookup map whose field sets are all non-empty,
`hasEmptySections` returns `false`. -/
lemma hasEmptySections_eq_false (r : INIReader)
    (h : LookupNonempty r.m_lookup) : hasEmptySections r = false := by
  unfold hasEmptySections
  split
  · rfl
  · simp only [List.any_eq_false]
    intro e he
    simpa using h e he

/-- `parseSection` preserves the invariant: when no stored field set is
empty the `hasEmptySections` guard cannot fire, and the only error it can
record is `NoClosingBracketForSection`. -/
lemma parseSection_inv (r : INIReader) (s : String) (h : Inv r) :
    Inv (parseSection r s).1 := by
  unfold parseSection
  rw [hasEmptySections_eq_false r h.1]
  simp only [Bool.false_eq_true, if_false]
  cases s.data.findIdx? (fun c => c == ']') with
  | none => exact ⟨h.1, by simp⟩
  | some closingIdx => exact ⟨h.1, h.2⟩

/-- `parsePair` preserves the invariant: its possible errors are
`KeyOutsideSection`, `NoValueForKey` and `NoClosingQuotationForValue`,
and its insertions keep every field set non-empty. -/
lemma parsePair_inv (r : INIReader) (k v : String) (h : Inv r) :
    Inv (parsePair r k v).1 := by
  unfold parsePair
  by_cases hin : r.m_in_section
  · simp only [hin, Bool.not_true, Bool.false_eq_true, if_false]
    by_cases hemp : (trim v).data.isEmpty
    · simp only [hemp, if_true]
      exact ⟨h.1, by simp⟩
    · simp only [hemp, Bool.false_eq_true, if_false]
      by_cases hq : ((trim v).data.headD ' ' == '"') = true
      · simp only [hq, if_true]
        cases rfindQuote (trim v).data with
        | none => exact ⟨h.1, by simp⟩
        | some endIdx =>
          by_cases hz : (endIdx == 0) = true
          · simp only [hz, if_true]
            exact ⟨h.1, by simp⟩
          · simp only [hz, Bool.false_eq_true, if_false]
            exact ⟨mapInsertField_nonempty _ _ _ h.1, h.2⟩
      · simp only [hq, Bool.false_eq_true, if_false]
        exact ⟨mapInsertField_nonempty _ _ _ h.1, h.2⟩
  · simp only [hin]
    exact ⟨h.1, by simp⟩

/-- `parseLine` preserves the invariant. -/
lemma parseLine_inv (r : INIReader) (s : String) (h : Inv r) :
    Inv (parseLine r s).1 := by
  unfold parseLine
  split
  · exact h
  · split
    · exact h
    · split
      · exact parseSection_inv r s h
      · split
        · exact ⟨h.1, fun hc => ErrorCode.noConfusion hc⟩
        · exact parsePair_inv r _ _ h

/-- The read loop preserves the invariant. -/
lemma parseLines_inv (ls : List String) (r : INIReader) (h : Inv r) :
    Inv (parseLines r ls) := by
  induction ls generalizing r with
  | nil => exact h
  | cons l ls ih =>
    simp only [parseLines]
    have hstep := parseLine_inv r (rstrip l) h
    cases hp : parseLine r (rstrip l) with
    | mk r1 ok =>
      rw [hp] at hstep
      cases ok with
      | true => exact ih { r1 with m_line_num := r1.m_line_num + 1 } hstep
      | false => exact hstep

/-! ## Ordering facts for `std::set` insertion

`std::set::insert` treats two elements as equivalent when neither is less
than the other; for `Field` this means key equality. The following
lemmas establish that inserting a field whose key is already present in a
key-sorted field set is a no-op. -/

/-- `ltCharList` is irreflexive. -/
lemma ltCharList_self (cs : List Char) : ltCharList cs cs = false := by
  induction cs with
  | nil => rfl
  | cons a as ih => simp [ltCharList, lt_irrefl a, ih]

/-- `ltStr` is irreflexive. -/
lemma ltStr_self (s : String) : ltStr s s = false :=
  ltCharList_self s.data

/-- `ltCharList` is asymmetric. -/
lemma ltCharList_asymm (as bs : List Char) (h : ltCharList as bs = true) :
    ltCharList bs as = false := by
  induction as generalizing bs with
  | nil =>
    cases bs with
    | nil => rfl
    | cons b bs => rfl
  | cons a as ih =>
    cases bs with
    | nil => exact absurd h (by simp [ltCharList])
    | cons b bs =>
      simp only [ltCharList] at h ⊢
      by_cases hab : a < b
      · simp [hab, asymm hab]
      · by_cases hba : b < a
        · simp [hba, hab] at h
        · simp only [hab, if_false, hba] at h ⊢
          exact ih bs h

/-- `ltStr` is asymmetric. -/
lemma ltStr_asymm (a b : String) (h : ltStr a b = true) : ltStr b a = false :=
  ltCharList_asymm a.data b.data h

/-- Inserting a field whose key already occurs in a key-sorted field set
leaves the set unchanged: `std::set::insert` never replaces an element
equivalent (equal key) to the new one, whatever the new value is. -/
lemma insertField_dup_key (fs : List Field) (f : Field)
    (hs : pairwiseKeysLt fs = true)
    (hm : fs.any (fun g => decide (g.key = f.key)) = true) :
    insertField fs f = fs := by
  induction fs with
  | nil => simp at hm
  | cons g gs ih =>
    simp only [pairwiseKeysLt, Bool.and_eq_true, List.all_eq_true] at hs
    simp only [List.any_cons, Bool.or_eq_true, decide_eq_true_eq] at hm
    rcases hm with hm | hm
    · simp only [insertField, hm, ltStr_self, Bool.false_eq_true, if_false]
    · obtain ⟨h1, hgs⟩ := hs
      obtain ⟨w, hw, hwk⟩ := List.any_eq_true.mp hm
      have hwk2 : w.key = f.key := of_decide_eq_true hwk
      have hlt : ltStr g.key f.key = true := hwk2 ▸ h1 w hw
      simp only [insertField, ltStr_asymm _ _ hlt, Bool.false_eq_true, if_false,
        hlt, if_true]
      rw [ih hgs hm]

/-! ## Line classification helpers

Predicates describing how `parseLine` classifies a raw input line (the
constructor rstrips each line before classifying it). -/

/-- `parseLine` ignores blank and comment lines without touching the
state. -/
lemma parseLine_skip (r : INIReader) (p : String)
    (h : isBlankOrComment p = true) : parseLine r (rstrip p) = (r, true) := by
  unfold parseLine
  unfold isBlankOrComment at h
  cases hq : (rstrip p).data with
  | nil => rfl
  | cons c cs =>
    rw [hq] at h
    simp only [List.isEmpty_cons, List.headD_cons, Bool.false_or] at h
    simp only []
    rw [if_pos h]

/-- On a key/value line encountered while no section is open, `parseLine`
records the `KeyOutsideSection` error and reports failure. -/
lemma parseLine_keyOutside (r : INIReader) (l : String)
    (hin : r.m_in_section = false) (h : isKeyValueLine l = true) :
    parseLine r (rstrip l) =
      ({ r with m_error := ErrorCode.KeyOutsideSection }, false) := by
  unfold parseLine
  unfold isKeyValueLine at h
  cases hq : (rstrip l).data with
  | nil => rw [hq] at h; simp at h
  | cons c cs =>
    rw [hq] at h
    simp only [List.isEmpty_cons, List.headD_cons, Bool.and_eq_true,
      Bool.not_eq_true'] at h
    obtain ⟨⟨⟨-, hc⟩, hbr⟩, hidx⟩ := h
    simp only []
    rw [hc, hbr]
    simp only [Bool.false_eq_true, if_false]
    obtain ⟨i, hi⟩ := Option.isSome_iff_exists.mp hidx
    rw [hi]
    simp only []
    unfold parsePair
    rw [hin]
    rfl

/-- Driving the read loop over ignorable lines and then a key/value line
while no section is open always ends in `KeyOutsideSection`. -/
lemma parseLines_keyOutside (pre : List String) (l : String)
    (rest : List String) (r : INIReader) (hin : r.m_in_section = false)
    (hpre : ∀ p ∈ pre, isBlankOrComment p = true)
    (hl : isKeyValueLine l = true) :
    (parseLines r (pre ++ l :: rest)).m_error = ErrorCode.KeyOutsideSection := by
  induction pre generalizing r with
  | nil =>
    simp only [List.nil_append, parseLines]
    rw [parseLine_keyOutside r l hin hl]
  | cons p pre ih =>
    simp only [List.cons_append, parseLines]
    rw [parseLine_skip r p (hpre p (List.mem_cons_self _ _))]
    exact ih { r with m_line_num := r.m_line_num + 1 } hin
      (fun q hq => hpre q (List.mem_cons_of_mem _ hq))

/-- Distinct error codes are distinguished by the derived boolean
equality. -/
lemma errorCode_beq_eq_false {a b : ErrorCode} (h : a ≠ b) :
    (a == b) = false := by
  cases a <;> cases b <;> first | rfl | exact absurd rfl h

/-- A string whose character list is empty is the empty string. -/
lemma eq_empty_of_isEmpty {s : String} (h : s.data.isEmpty = true) :
    s = "" :=
  String.ext (List.isEmpty_iff.mp h)

/-! ## The claims -/

/-- Claim C1: the spec demands that a declared section with no key/value
pair before EOF or the next header (e.g. `"[A]\n[B]\ny=2\n"`) fail with
the *empty section* error. The code cannot do this: `parseSection` only
registers names in `m_section_names` while `hasEmptySections` inspects
`m_lookup`, whose entries are created by `parsePair` together with their
first field, so every stored field set is non-empty, the guard never
fires, and the `EmptySection` error is unreachable on every input; the
cited input parses successfully. -/
theorem claim_C1_emptySection_unreachable :
    success (parseString "[A]\n[B]\ny=2\n") = true ∧
    (parseString "[A]\n[B]\ny=2\n").m_error = ErrorCode.None ∧
    ∀ lines : List String,
      ((parseINI lines).m_error == ErrorCode.EmptySection) = false := by
  refine ⟨rfl, rfl, fun lines => ?_⟩
  have h := parseLines_inv lines { m_line_num := 1 }
    ⟨fun e he => absurd he (List.not_mem_nil e),
     fun hc => ErrorCode.noConfusion hc⟩
  exact errorCode_beq_eq_false h.2

/-- Claim C2 (counterexample): the claim states that a repeated key with
a different value is inserted as a distinct entry, so that both pairs
coexist. On the input `"[A]\nx = 1\nx = 2\n"` the section's field set
holds exactly the single field `x=1`: the second insert was dropped,
because `std::set` equivalence is decided by `Field::operator<`, which
compares keys only. -/
theorem claim_C2_counterexample :
    getSectionFields (parseString "[A]\nx = 1\nx = 2\n") "A"
      = some [{ key := "x", value := "1" }] ∧
    get (parseString "[A]\nx = 1\nx = 2\n") "A" "x" "other" = "1" ∧
    success (parseString "[A]\nx = 1\nx = 2\n") = true :=
  ⟨rfl, rfl, rfl⟩

/-- Claim C2 (amended): when a key/value line repeats a key already
present in the current section's (key-sorted) field set, the insertion is
a no-op whatever the new value is — the first stored value for the key is
retained, and duplicate keys never coexist. -/
theorem claim_C2_amended (fs : List Field) (f : Field)
    (hs : pairwiseKeysLt fs = true)
    (hm : fs.any (fun g => decide (g.key = f.key)) = true) :
    insertField fs f = fs :=
  insertField_dup_key fs f hs hm

/-- Witness for the amended claim C2 at a concrete field set. -/
theorem claim_C2_amended_witness :
    insertField [{ key := "x", value := "1" }] { key := "x", value := "2" }
      = [{ key := "x", value := "1" }] :=
  claim_C2_amended [{ key := "x", value := "1" }] { key := "x", value := "2" }
    (by decide) (by decide)

/-- Claim C3 (counterexample): the claim states the text between the
first and last double quote is stored verbatim, trailing spaces included.
On `"[A]\nx = \"a \"\n"` the text between the quotes is `"a "` but the
stored value is `"a"`: `parsePair` rstrips the extracted content. -/
theorem claim_C3_counterexample :
    get (parseString "[A]\nx = \"a \"\n") "A" "x" "?" = "a" ∧
    success (parseString "[A]\nx = \"a \"\n") = true :=
  ⟨rfl, rfl⟩

/-- Claim C3 (amended): for a key/value pair whose trimmed value begins
with a double quote and whose last double quote is not the first
character, the stored value is the text strictly between the first and
the last quote with trailing spaces stripped; inline comments inside the
quotes are not stripped (witnessed by the spec's own scenario
`name = "hello ; world"`). -/
theorem claim_C3_amended (r : INIReader) (k v : String) (i : Nat)
    (hin : r.m_in_section = true)
    (hq : (trim v).data.headD ' ' = '"')
    (hr : rfindQuote (trim v).data = some i) (hi : i ≠ 0) :
    parsePair r k v =
      ({ r with m_lookup := mapInsertField r.m_lookup r.m_curr_section ⟨trim k, rstrip (String.mk (substr (trim v).data 1 (i - 1)))⟩ }, true) ∧
    get (parseString "[A]\nname = \"hello ; world\"\n") "A" "name" ""
      = "hello ; world" := by
  refine ⟨?_, rfl⟩
  unfold parsePair
  rw [hin]
  simp only [Bool.not_true, Bool.false_eq_true, if_false]
  have hne : (trim v).data.isEmpty = false := by
    cases hd : (trim v).data with
    | nil => rw [hd] at hq; exact absurd hq (by decide)
    | cons c cs => rfl
  rw [hne]
  simp only [Bool.false_eq_true, if_false]
  rw [hq]
  simp only [beq_self_eq_true, if_true]
  rw [hr]
  simp only []
  rw [if_neg (by simpa using hi)]

/-- Witness for the amended claim C3, instantiated on a state that has an
open section and on the value `"a "`, whose last quote sits at index 3. -/
theorem claim_C3_amended_witness :
    get (parseString "[A]\nname = \"hello ; world\"\n") "A" "name" ""
      = "hello ; world" :=
  (claim_C3_amended (parseINI ["[A]"]) "x" " \"a \"" 3 rfl rfl rfl
    (by decide)).2

/-- Claim C4 (counterexample): the claim states that the inline-comment
prefix set is `;` only and that `#` does not cause truncation. On
`"[A]\nx = a #b\n"` the stored value is `"a"`, truncated at the `#`:
`removeComment` iterates over `START_COMMENT_PREFIXES` (`";#"`), not
`INLINE_COMMENT_PREFIXES`. -/
theorem claim_C4_counterexample :
    get (parseString "[A]\nx = a #b\n") "A" "x" "?" = "a" ∧
    success (parseString "[A]\nx = a #b\n") = true :=
  ⟨rfl, rfl⟩

/-- Claim C4 (amended): for unquoted values the truncation set is the
start-of-line comment set `";#"`, tried in that order: the value is
truncated before the first `;` when one occurs anywhere, otherwise before
the first `#` when one occurs, with trailing whitespace re-stripped; so
`#` does cause truncation, and a `;` wins over an earlier `#`. -/
theorem claim_C4_amended :
    (∀ s, removeComment s = removeCommentAmended s) ∧
    get (parseString "[A]\nx = a #b\n") "A" "x" "?" = "a" ∧
    get (parseString "[A]\nx = a #b ;c\n") "A" "x" "?" = "a #b" := by
  refine ⟨fun s => ?_, rfl, rfl⟩
  cases h1 : s.data.findIdx? (fun c => c == ';') with
  | some i =>
    simp [removeComment, removeCommentAmended, findCommentIdx,
      startCommentChars, h1, substr]
  | none =>
    cases h2 : s.data.findIdx? (fun c => c == '#') with
    | some i =>
      simp [removeComment, removeCommentAmended, findCommentIdx,
        startCommentChars, h1, h2, substr]
    | none =>
      simp [removeComment, removeCommentAmended, findCommentIdx,
        startCommentChars, h1, h2]

/-- Claim C5: whenever every line before some line `l` is blank or a
start-of-line comment, and `l` (after rstrip) is none of blank, comment
or section header and contains `=`, parsing records the
`KeyOutsideSection` error and `success` is `false`, whatever follows. -/
theorem claim_C5_keyOutsideSection (pre : List String) (l : String)
    (rest : List String)
    (hpre : ∀ p ∈ pre, isBlankOrComment p = true)
    (hl : isKeyValueLine l = true) :
    (parseINI (pre ++ l :: rest)).m_error = ErrorCode.KeyOutsideSection ∧
    success (parseINI (pre ++ l :: rest)) = false := by
  have h := parseLines_keyOutside pre l rest { m_line_num := 1 } rfl hpre hl
  unfold parseINI
  refine ⟨h, ?_⟩
  unfold success
  rw [h]
  rfl

/-- Witness for claim C5: the spec's scenario 2, input `"x = 1\n"`. -/
theorem claim_C5_witness :
    (parseString "x = 1\n").m_error = ErrorCode.KeyOutsideSection ∧
    success (parseString "x = 1\n") = false :=
  claim_C5_keyOutsideSection [] "x = 1" [] (by simp) (by decide)

/-- Claim C6: parsing `"[A]\nx = 1\n"` succeeds, the section-name set is
exactly `{"A"}`, and `getInt("A","x",0)` returns `1`. -/
theorem claim_C6_basic_parse :
    success (parseString "[A]\nx = 1\n") = true ∧
    getSectionNames (parseString "[A]\nx = 1\n") = ["A"] ∧
    getInt (parseString "[A]\nx = 1\n") "A" "x" 0 = some 1 :=
  ⟨rfl, rfl, rfl⟩

/-- Claim C7: on every reader state, section, key and default, `getBool`
behaves exactly as the spec words it — the raw looked-up string is
lower-cased, the four true-literals give `true`, the four false-literals
give `false`, and anything else (including the empty string) gives the
default; in particular `"[A]\nflag = YES\n"` yields `true`
case-insensitively. -/
theorem claim_C7_getBool (r : INIReader) (sec key : String) (d : Bool) :
    getBool r sec key d = getBoolOfRaw (get r sec key "") d ∧
    getBool (parseString "[A]\nflag = YES\n") "A" "flag" false = true := by
  refine ⟨?_, rfl⟩
  unfold getBool getBoolOfRaw
  generalize get r sec key "" = s
  by_cases hd : s.data.isEmpty = true
  · rw [eq_empty_of_isEmpty hd]
    rfl
  · rw [Bool.not_eq_true] at hd
    simp only []
    rw [hd]
    rfl

/-- Witness for claim C7 on the spec's scenario 5. -/
theorem claim_C7_witness :
    getBool (parseString "[A]\nflag = YES\n") "A" "flag" false = true :=
  (claim_C7_getBool (parseString "[A]\nflag = YES\n") "A" "flag" false).2

/-- Claim C8: `getString` returns the caller's default exactly when the
raw lookup (with empty default) is the empty string — which happens both
when the section or key is absent and when the key is present with an
empty stored value (reachable via `x = ""`) — and returns the stored
value otherwise. -/
theorem claim_C8_getString (r : INIReader) (sec key d : String) :
    (get r sec key "" = "" → getString r sec key d = d) ∧
    (get r sec key "" ≠ "" → getString r sec key d = get r sec key "") ∧
    getString (parseString "[A]\nx = \"\"\n") "A" "x" "dflt" = "dflt" ∧
    getSectionFields (parseString "[A]\nx = \"\"\n") "A"
      = some [{ key := "x", value := "" }] ∧
    getString (parseString "[A]\nx = \"\"\n") "B" "y" "dflt" = "dflt" := by
  refine ⟨?_, ?_, rfl, rfl, rfl⟩
  · intro h
    unfold getString
    rw [h]
    rfl
  · intro h
    unfold getString
    have hd : (get r sec key "").data.isEmpty = false := by
      cases hcase : (get r sec key "").data.isEmpty
      · rfl
      · exact absurd (eq_empty_of_isEmpty hcase) h
    simp only []
    rw [hd]
    rfl

/-- Witness for claim C8: an absent key falls back to the default. -/
theorem claim_C8_witness :
    getString (parseString "[A]\nx = 1\n") "A" "nope" "dflt" = "dflt" :=
  (claim_C8_getString (parseString "[A]\nx = 1\n") "A" "nope" "dflt").1 rfl

/-- Claim C9: the parse result is a deterministic function of the input
lines — parsing identical inputs yields stores with equal section-name
sets and equal per-section field sets. In the embedding the constructor
is a pure function of the line list, so equal inputs give equal
stores. -/
theorem claim_C9_deterministic (l1 l2 : List String) (h : l1 = l2) :
    getSectionNames (parseINI l1) = getSectionNames (parseINI l2) ∧
    ∀ sec, getSectionFields (parseINI l1) sec
      = getSectionFields (parseINI l2) sec := by
  subst h
  exact ⟨rfl, fun _ => rfl⟩

/-- Witness for claim C9 at a concrete input. -/
theorem claim_C9_witness :
    getSectionNames (parseINI ["[A]", "x = 1"])
      = getSectionNames (parseINI ["[A]", "x = 1"]) :=
  (claim_C9_deterministic ["[A]", "x = 1"] ["[A]", "x = 1"] rfl).1

/-- Claim C10: on the single-line input `"[A]"` parsing succeeds and
`"A"` is among the section names, yet `getSectionFields "A"` is the fatal
lookup failure (`std::map::at` throwing, modelled as `none`): declaring a
section registers its name in `m_section_names` without creating an entry
in `m_lookup`. -/
theorem claim_C10_declared_section_not_in_lookup :
    success (parseINI ["[A]"]) = true ∧
    "A" ∈ getSectionNames (parseINI ["[A]"]) ∧
    getSectionFields (parseINI ["[A]"]) "A" = none := by
  refine ⟨rfl, ?_, rfl⟩
  show "A" ∈ ["A"]
  exact List.mem_singleton.mpr rfl

end DotIni
